import Mathlib

/-!
Shallow embedding of the tcglog-parser repository's binary log decoder
(`log.go`) and event validator (`check.go`), with theorems checking the
natural-language specification against the code.

Bytes are modelled as `Fin 256`.  The Go code decodes every multi-byte
integer field by reinterpreting raw memory through `unsafe.Pointer`
(`nativeEndian_` in `log.go`), so the decoded value depends on the
executing host's byte order.  All decoders here therefore take a
`big : Bool` parameter: `false` models a little-endian host, `true` a
big-endian one.
-/

set_option maxHeartbeats 1000000

namespace Tcg

/-- A wire byte. -/
abbrev Byte := Fin 256

/-- Little-endian interpretation of a byte string as an unsigned integer. -/
def leVal : List Byte → Nat
| [] => 0
| b :: rest => b.val + 256 * leVal rest

/-- Big-endian interpretation of a byte string as an unsigned integer. -/
def beVal (l : List Byte) : Nat := l.foldl (fun acc b => acc * 256 + b.val) 0

/-- `nativeEndian_.UintN` in `log.go`: the bytes are reinterpreted as raw
memory of the host, so a little-endian host reads them little-endian and a
big-endian host reads them big-endian. -/
def nativeVal (big : Bool) (l : List Byte) : Nat :=
  if big then beVal l else leVal l

/-- A single-quote character as a string, used in the decoder's error
messages (Go `fmt.Sprintf` with quoted verbs). -/
def sq : String := String.mk [Char.ofNat 39]

/-- One hexadecimal digit, lower case, as Go `%x` prints it. -/
def hexDigitChar (n : Nat) : Char :=
  if n < 10 then Char.ofNat (48 + n) else Char.ofNat (87 + n)

/-- Go `fmt.Sprintf("%04x", n)` for `n < 65536`. -/
def hex4 (n : Nat) : String :=
  String.mk [hexDigitChar (n / 4096 % 16), hexDigitChar (n / 256 % 16),
             hexDigitChar (n / 16 % 16), hexDigitChar (n % 16)]

/-- The errors the decoder can surface: `io.EOF`, `io.ErrUnexpectedEOF`
and `InvalidLogError` (whose distinguishing content is its message). -/
inductive GoError where
  | eof
  | unexpectedEOF
  | invalidLog (msg : String)
deriving DecidableEq

/-- `binary.Read` of a `k`-byte unsigned integer (`log.go` reads 2- and
4-byte fields this way): `io.ReadFull` of `k` bytes, then reinterpretation
through `nativeEndian`.  An empty source yields `io.EOF`; a source that
ends mid-field yields `io.ErrUnexpectedEOF` (and in both error cases the
reader is left at the end of the source). -/
def binaryRead (big : Bool) (k : Nat) (s : List Byte) :
    Except GoError (Nat × List Byte) :=
  if k ≤ s.length then .ok (nativeVal big (s.take k), s.drop k)
  else if s.length = 0 then .error .eof
  else .error .unexpectedEOF

/-- `io.ReadFull` of `k` bytes, returning the bytes read. -/
def ioReadFull (k : Nat) (s : List Byte) :
    Except GoError (List Byte × List Byte) :=
  if k ≤ s.length then .ok (s.take k, s.drop k)
  else if s.length = 0 then .error .eof
  else .error .unexpectedEOF

/-- A single `Read` call on a `bytes.Reader`/file into a zeroed `k`-byte
buffer, as `stream_1_2.ReadNextEvent` uses for the SHA-1 digest: it fills
at most the available bytes (the remainder of the buffer stays zero, and
the short count is ignored by the caller), and only an already-empty
source reports `io.EOF`. -/
def readerRead (k : Nat) (s : List Byte) :
    Except GoError (List Byte × List Byte) :=
  if s.length = 0 then
    if k = 0 then .ok ([], s) else .error .eof
  else .ok (s.take k ++ List.replicate (k - s.length) 0, s.drop k)

/-- Modelled from the spec: the TPM algorithm identifier for SHA-1
(the constant `AlgorithmSha1` lives in the repository's event-table file,
which is not under `src/`; the claims use it only symbolically). -/
def algSha1 : Nat := 4

/-- Modelled from the spec: the TPM algorithm identifier for SHA-256. -/
def algSha256 : Nat := 11

/-- Modelled from the spec: the TPM algorithm identifier for SHA-384. -/
def algSha384 : Nat := 12

/-- Modelled from the spec: the TPM algorithm identifier for SHA-512. -/
def algSha512 : Nat := 13

/-- Modelled from the spec: the event-type code `EventTypePostCode`
(defined in the repository's event-table file, not under `src/`). -/
def eventTypePostCode : Nat := 1

/-- Modelled from the spec: the event-type code `EventTypeNoAction`. -/
def eventTypeNoAction : Nat := 3

/-- Modelled from the spec: the event-type code `EventTypeSeparator`. -/
def eventTypeSeparator : Nat := 4

/-- Modelled from the spec: the event-type code `EventTypeEventTag`. -/
def eventTypeEventTag : Nat := 6

/-- `knownAlgorithms` in `log.go`: the Digest Catalog, mapping each
recognized algorithm to its fixed digest size. -/
def knownAlgorithms (a : Nat) : Option Nat :=
  if a = algSha1 then some 20
  else if a = algSha256 then some 32
  else if a = algSha384 then some 48
  else if a = algSha512 then some 64
  else none

/-- `maxPCRIndex` in `log.go`. -/
def maxPCRIndex : Nat := 31

/-- A decoded event (`Event` in `log.go`): PCR index, event type, the
digest map (an association list standing for the Go map, at most one
entry per algorithm) and the raw event data. -/
structure Event where
  pcrIndex : Nat
  eventType : Nat
  digests : List (Nat × List Byte)
  data : List Byte
deriving DecidableEq

/-- Go map update `digests[alg] = digest`: replace the existing binding
for the key, or append a new one. -/
def dmInsert : List (Nat × List Byte) → Nat → List Byte → List (Nat × List Byte)
| [], k, v => [(k, v)]
| (k', v') :: rest, k, v =>
    if k' = k then (k, v) :: rest else (k', v') :: dmInsert rest k v

/-- Go map lookup `digests[alg]`. -/
def dmGet : List (Nat × List Byte) → Nat → Option (List Byte)
| [], _ => none
| (k, v) :: rest, a => if k = a then some v else dmGet rest a

/-- Go map lookup with the nil-slice default for a missing key. -/
def dmGetD (m : List (Nat × List Byte)) (a : Nat) : List Byte :=
  (dmGet m a).getD []

/-- Result of one `ReadNextEvent` call: `ok` carries the event and the
remaining source; `fail` carries the Go function's boolean second return
value (`began`, true when a record began but could not be completed),
the error, and the remaining source. -/
inductive ReadResult where
  | ok (e : Event) (rest : List Byte)
  | fail (began : Bool) (err : GoError) (rest : List Byte)
deriving DecidableEq

/-- The message of the `InvalidLogError` raised for an out-of-range PCR
index (Go `fmt.Sprintf("Invalid PCR index '%d'", pcrIndex)`). -/
def invalidPCRMsg (pcr : Nat) : String :=
  "Invalid PCR index " ++ sq ++ Nat.repr pcr ++ sq

/-- `stream_1_2.ReadNextEvent` in `log.go`: the legacy
(TCG_PCClientPCREventStruct) record layout — 4-byte PCR index, 4-byte
event type, 20-byte SHA-1 digest, 4-byte event-data length, event data. -/
def stream12Read (big : Bool) (s : List Byte) : ReadResult :=
  match binaryRead big 4 s with
  | .error e => .fail false e []
  | .ok (pcrIndex, s1) =>
    if maxPCRIndex < pcrIndex then
      .fail true (.invalidLog (invalidPCRMsg pcrIndex)) s1
    else
      match binaryRead big 4 s1 with
      | .error e => .fail true e []
      | .ok (eventType, s2) =>
        match readerRead 20 s2 with
        | .error e => .fail true e []
        | .ok (digest, s3) =>
          match binaryRead big 4 s3 with
          | .error e => .fail true e []
          | .ok (eventSize, s4) =>
            match ioReadFull eventSize s4 with
            | .error e => .fail true e []
            | .ok (data, s5) =>
              .ok { pcrIndex := pcrIndex, eventType := eventType,
                    digests := [(algSha1, digest)], data := data } s5

/-- The message of the `InvalidLogError` raised for a digest-list entry
whose algorithm is missing from the log header (Go
`fmt.Sprintf("Entry for algorithm '%04x' not found in log header", id)`). -/
def algNotFoundMsg (a : Nat) : String :=
  "Entry for algorithm " ++ sq ++ hex4 a ++ sq ++ " not found in log header"

/-- The linear search over `s.algorithmSizes` in `stream_2.ReadNextEvent`
(first matching entry wins). -/
def lookupAlgSize : List (Nat × Nat) → Nat → Option Nat
| [], _ => none
| (a, sz) :: rest, x => if a = x then some sz else lookupAlgSize rest x

/-- The digest-list loop of `stream_2.ReadNextEvent`: `count` iterations,
each reading a 2-byte algorithm identifier, looking its digest size up in
the header's algorithm-size list (a miss is an `InvalidLogError`),
consuming that many digest bytes, and retaining the digest in the map
only when the algorithm is in `knownAlgorithms`.  On error the remaining
source at the Go reader's position is returned alongside the error. -/
def readDigests (big : Bool) (szs : List (Nat × Nat)) :
    Nat → List (Nat × List Byte) → List Byte →
    Except (GoError × List Byte) (List (Nat × List Byte) × List Byte)
| 0, m, s => .ok (m, s)
| n + 1, m, s =>
  match binaryRead big 2 s with
  | .error e => .error (e, [])
  | .ok (algorithmId, s1) =>
    match lookupAlgSize szs algorithmId with
    | none => .error (.invalidLog (algNotFoundMsg algorithmId), s1)
    | some digestSize =>
      match ioReadFull digestSize s1 with
      | .error e => .error (e, [])
      | .ok (digest, s2) =>
        readDigests big szs n
          (if (knownAlgorithms algorithmId).isSome then
             dmInsert m algorithmId digest
           else m) s2

/-- The non-first-record path of `stream_2.ReadNextEvent` in `log.go`:
the crypto-agile (TCG_PCR_EVENT2) record layout — 4-byte PCR index,
4-byte event type, 4-byte digest count, the digest list, 4-byte
event-data length, event data. -/
def stream2Record (big : Bool) (szs : List (Nat × Nat)) (s : List Byte) :
    ReadResult :=
  match binaryRead big 4 s with
  | .error e => .fail false e []
  | .ok (pcrIndex, s1) =>
    if maxPCRIndex < pcrIndex then
      .fail true (.invalidLog (invalidPCRMsg pcrIndex)) s1
    else
      match binaryRead big 4 s1 with
      | .error e => .fail true e []
      | .ok (eventType, s2) =>
        match binaryRead big 4 s2 with
        | .error e => .fail true e []
        | .ok (count, s3) =>
          match readDigests big szs count [] s3 with
          | .error (e, sr) => .fail true e sr
          | .ok (digests, s4) =>
            match binaryRead big 4 s4 with
            | .error e => .fail true e []
            | .ok (eventSize, s5) =>
              match ioReadFull eventSize s5 with
              | .error e => .fail true e []
              | .ok (data, s6) =>
                .ok { pcrIndex := pcrIndex, eventType := eventType,
                      digests := digests, data := data } s6

/-- The 16-byte signature `"Spec ID Event03\0"` that opens a crypto-agile
log's header payload. -/
def specIdSig : List Byte :=
  [0x53, 0x70, 0x65, 0x63, 0x20, 0x49, 0x44, 0x20,
   0x45, 0x76, 0x65, 0x6e, 0x74, 0x30, 0x33, 0x00]

/-- `isZeroDigest` in `check.go` (and the inline loop in
`parseTCG2LogHeader`): every byte is zero. -/
def isZeroBytes (l : List Byte) : Prop := ∀ b ∈ l, b.val = 0

instance (l : List Byte) : Decidable (isZeroBytes l) :=
  List.decidableBAll _ l

/-- The pair loop inside `parseTCG2LogHeader`: read `n` (2-byte algorithm
identifier, 2-byte digest size) pairs; any short read abandons the whole
header (`nil` in Go). -/
def parseAlgSizes (big : Bool) : Nat → List Byte → Option (List (Nat × Nat))
| 0, _ => some []
| n + 1, s =>
  match binaryRead big 2 s with
  | .error _ => none
  | .ok (a, s1) =>
    match binaryRead big 2 s1 with
    | .error _ => none
    | .ok (sz, s2) =>
      match parseAlgSizes big n s2 with
      | none => none
      | some rest => some ((a, sz) :: rest)

/-- `parseTCG2LogHeader` in `log.go`: recognize the crypto-agile header
record (PCR 0, no-action type, all-zero SHA-1 digest, payload of at least
29 bytes beginning with the Spec ID signature) and decode the
algorithm-size descriptor from payload offset 24 (4-byte count, then the
pairs). -/
def parseTCG2LogHeader (big : Bool) (e : Event) : Option (List (Nat × Nat)) :=
  if e.pcrIndex ≠ 0 then none
  else if e.eventType ≠ eventTypeNoAction then none
  else if ¬ isZeroBytes (dmGetD e.digests algSha1) then none
  else if e.data.length < 29 then none
  else if e.data.take 16 ≠ specIdSig then none
  else
    match binaryRead big 4 (e.data.drop 24) with
    | .error _ => none
    | .ok (numAlgs, s) => parseAlgSizes big numAlgs s

/-- The message of the `InvalidLogError` raised by `newLogFromReader` for
a recognized algorithm whose declared digest size disagrees with the
Digest Catalog. -/
def sizeMismatchMsg (a sz k : Nat) : String :=
  "Digest size in log header for algorithm " ++ sq ++ hex4 a ++ sq ++
  " doesn" ++ sq ++ "t match expected size (size: " ++ Nat.repr sz ++
  ", expected " ++ Nat.repr k ++ ")"

/-- The algorithm-list loop of `newLogFromReader`: walk the header's
algorithm sizes in order, fail on the first recognized algorithm whose
size disagrees with `knownAlgorithms`, and collect the recognized
algorithms in order. -/
def buildAlgorithms : List (Nat × Nat) → Except GoError (List Nat)
| [] => .ok []
| (a, sz) :: rest =>
  match knownAlgorithms a with
  | some k =>
    if k ≠ sz then .error (.invalidLog (sizeMismatchMsg a sz k))
    else
      match buildAlgorithms rest with
      | .error e => .error e
      | .ok algs => .ok (a :: algs)
  | none => buildAlgorithms rest

/-- `Format` in the repository: the two wire encodings. -/
inductive Format where
  | f1_2
  | f2
deriving DecidableEq

/-- The decoder variants behind the `stream` interface: `stream_1_2`, and
`stream_2` with its algorithm-size list and `readFirstEvent` flag. -/
inductive LogStream where
  | s12
  | s2 (algSizes : List (Nat × Nat)) (readFirstEvent : Bool)
deriving DecidableEq

/-- A seekable byte source (`io.ReadSeeker`): the full contents and the
current read offset. -/
structure Reader where
  data : List Byte
  pos : Nat
deriving DecidableEq

/-- The bytes from the reader's current position to the end. -/
def Reader.rest (r : Reader) : List Byte := r.data.drop r.pos

/-- Advance the reader past the bytes a record read consumed (the read
returned `remaining` as the unconsumed suffix). -/
def Reader.afterRead (r : Reader) (remaining : List Byte) : Reader :=
  { r with pos := r.pos + (r.rest.length - remaining.length) }

/-- `Log` in `log.go`: format, discovered algorithm list, the chosen
stream decoder, and the positioned source. -/
structure Log where
  format : Format
  algorithms : List Nat
  stream : LogStream
  reader : Reader
deriving DecidableEq

/-- The unconsumed suffix a record read reports. -/
def ReadResult.rest : ReadResult → List Byte
| .ok _ r => r
| .fail _ _ r => r

/-- Dispatch of `stream.ReadNextEvent()`: `stream_1_2` always uses the
legacy layout; `stream_2` delegates its very first read to the legacy
layout (setting `readFirstEvent`) and decodes every later record with the
crypto-agile layout. -/
def recordRead (big : Bool) : LogStream → List Byte → ReadResult × LogStream
| .s12, s => (stream12Read big s, .s12)
| .s2 szs false, s => (stream12Read big s, .s2 szs true)
| .s2 szs true, s => (stream2Record big szs s, .s2 szs true)

/-- The error conversion in `Log.NextEvent`: when the record began
(`began`) but the error is `io.EOF`, surface `io.ErrUnexpectedEOF`. -/
def convertRead : ReadResult → Except GoError Event
| .ok e _ => .ok e
| .fail began err _ =>
    .error (if began = true ∧ err = GoError.eof then .unexpectedEOF else err)

/-- `Log.NextEvent` in `log.go`: read the next record through the owned
stream; when the record began but ended in `io.EOF`, surface
`io.ErrUnexpectedEOF` instead. -/
def Log.nextEvent (big : Bool) (l : Log) : (Except GoError Event) × Log :=
  match recordRead big l.stream l.reader.rest with
  | (res, st) =>
    (convertRead res,
     { l with stream := st, reader := l.reader.afterRead res.rest })

/-- `newLogFromReader` in `log.go`: remember the start offset, read the
first record with the legacy layout (an `io.EOF` here becomes
`io.ErrUnexpectedEOF`), seek back to the start, and choose the format:
if the record parses as a crypto-agile header, validate the declared
sizes of recognized algorithms and use `stream_2`; otherwise the log is
legacy with algorithm set {SHA-1}. -/
def newLogFromReader (big : Bool) (r : Reader) : Except GoError Log :=
  match stream12Read big r.rest with
  | .fail _ err _ =>
    .error (if err = GoError.eof then .unexpectedEOF else err)
  | .ok event _ =>
    match parseTCG2LogHeader big event with
    | some algSizes =>
      match buildAlgorithms algSizes with
      | .error e => .error e
      | .ok algs =>
        .ok { format := .f2, algorithms := algs,
              stream := .s2 algSizes false,
              reader := { data := r.data, pos := r.pos } }
    | none =>
      .ok { format := .f1_2, algorithms := [algSha1],
            stream := .s12, reader := { data := r.data, pos := r.pos } }

/-- Modelled from the spec: the `EventData` interface carried by the
validator's events (the payload-decoding code is not under `src/`).  A
payload either decoded as a recognized separator record
(`SeparatorEventData`, with its `Type` field and measured bytes) or is
some other payload, on which the separator type assertion fails; in both
cases `Bytes()` returns the measured payload bytes. -/
inductive EventData where
  | separator (type : Nat) (bytes : List Byte)
  | other (bytes : List Byte)
deriving DecidableEq

/-- `EventData.Bytes()`. -/
def EventData.toBytes : EventData → List Byte
| .separator _ b => b
| .other b => b

/-- Modelled from the spec: the `SeparatorEventTypeError` tag value of a
separator record that indicates an error condition (its numeric value is
irrelevant to the claims; only equality with a record's `Type` matters). -/
def separatorEventTypeError : Nat := 1

/-- A validator-side event: like `Event` but carrying decoded payload
data, as `checkEvent` in `check.go` consumes it. -/
structure VEvent where
  pcrIndex : Nat
  eventType : Nat
  digests : List (Nat × List Byte)
  data : EventData
deriving DecidableEq

/-- The errors `checkEvent` can return: `UnexpectedEventTypeError`,
`UnexpectedDigestValueError` and `InvalidEventDataError`, with the fields
the Go structs carry. -/
inductive CheckError where
  | unexpectedEventType (eventType pcrIndex : Nat)
  | unexpectedDigestValue (eventType alg : Nat) (digest : List Byte)
  | invalidEventData (eventType : Nat) (data : EventData)
deriving DecidableEq

/-- The `range e.Digests` loop of the separator case in `checkEvent`:
first digest that differs from `hashFn alg d` (Go map iteration order is
modelled by the association list's order; which offender is found first
does not affect any claim). -/
def findMismatch (hashFn : Nat → List Byte → List Byte) (d : List Byte) :
    List (Nat × List Byte) → Option (Nat × List Byte)
| [] => none
| (a, dg) :: rest =>
    if dg ≠ hashFn a d then some (a, dg) else findMismatch hashFn d rest

/-- The `range e.Digests` loop of the no-action case in `checkEvent`:
first digest that is not all-zero. -/
def findNonZero : List (Nat × List Byte) → Option (Nat × List Byte)
| [] => none
| (a, dg) :: rest =>
    if ¬ isZeroBytes dg then some (a, dg) else findNonZero rest

/-- The 4-byte buffer `checkEvent` hashes for an error-indicating
separator: Go writes `uint32(1)` through an `unsafe.Pointer`, so the
bytes are the host's native representation of 1. -/
def errorSeparatorBytes (big : Bool) : List Byte :=
  if big then [0, 0, 0, 1] else [1, 0, 0, 0]

/-- `checkEvent` in `check.go`: the per-event-type structural and digest
rules.  `hashFn alg data` stands for the external crypto library's hash
of `data` under algorithm `alg` (`hash` in `check.go`). -/
def checkEvent (big : Bool) (hashFn : Nat → List Byte → List Byte)
    (e : VEvent) (f : Format) : Option CheckError :=
  if e.eventType = eventTypePostCode then
    if e.pcrIndex ≠ 0 then
      some (.unexpectedEventType e.eventType e.pcrIndex)
    else none
  else if e.eventType = eventTypeNoAction then
    if e.pcrIndex ≠ 0 ∧ e.pcrIndex ≠ 6 then
      some (.unexpectedEventType e.eventType e.pcrIndex)
    else
      match findNonZero e.digests with
      | some (a, dg) => some (.unexpectedDigestValue e.eventType a dg)
      | none => none
  else if e.eventType = eventTypeSeparator then
    if 7 < e.pcrIndex then
      some (.unexpectedEventType e.eventType e.pcrIndex)
    else
      match e.data with
      | .other b => some (.invalidEventData e.eventType (.other b))
      | .separator t bytes =>
        let d := if t = separatorEventTypeError then errorSeparatorBytes big
                 else (EventData.separator t bytes).toBytes
        match findMismatch hashFn d e.digests with
        | some (a, dg) => some (.unexpectedDigestValue e.eventType a dg)
        | none => none
  else if e.eventType = eventTypeEventTag then
    if 4 < e.pcrIndex ∨ (e.pcrIndex < 4 ∧ f = Format.f2) then
      some (.unexpectedEventType e.eventType e.pcrIndex)
    else none
  else none

/-- The host-native 2-byte representation of `v` (what
`nativeEndian_.PutUint16` would store, and what the wire must contain for
the host to decode `v`). -/
def encodeU16 (big : Bool) (v : Nat) : List Byte :=
  if big then [⟨v / 256 % 256, by omega⟩, ⟨v % 256, by omega⟩]
  else [⟨v % 256, by omega⟩, ⟨v / 256 % 256, by omega⟩]

/-- The host-native 4-byte representation of `v`. -/
def encodeU32 (big : Bool) (v : Nat) : List Byte :=
  if big then
    [⟨v / 16777216 % 256, by omega⟩, ⟨v / 65536 % 256, by omega⟩,
     ⟨v / 256 % 256, by omega⟩, ⟨v % 256, by omega⟩]
  else
    [⟨v % 256, by omega⟩, ⟨v / 256 % 256, by omega⟩,
     ⟨v / 65536 % 256, by omega⟩, ⟨v / 16777216 % 256, by omega⟩]

theorem encodeU16_length (big : Bool) (v : Nat) :
    (encodeU16 big v).length = 2 := by
  cases big <;> simp [encodeU16]

theorem encodeU32_length (big : Bool) (v : Nat) :
    (encodeU32 big v).length = 4 := by
  cases big <;> simp [encodeU32]

theorem nativeVal_encodeU16 (big : Bool) {v : Nat} (h : v < 65536) :
    nativeVal big (encodeU16 big v) = v := by
  cases big <;> simp [nativeVal, encodeU16, beVal, leVal] <;> omega

theorem nativeVal_encodeU32 (big : Bool) {v : Nat} (h : v < 4294967296) :
    nativeVal big (encodeU32 big v) = v := by
  cases big <;> simp [nativeVal, encodeU32, beVal, leVal] <;> omega

theorem binaryRead_exact (big : Bool) {k : Nat} (b t : List Byte)
    (h : b.length = k) :
    binaryRead big k (b ++ t) = .ok (nativeVal big b, t) := by
  subst h
  have h1 : b.length ≤ (b ++ t).length := by simp
  simp [binaryRead, h1]

theorem ioReadFull_exact {k : Nat} (b t : List Byte) (h : b.length = k) :
    ioReadFull k (b ++ t) = .ok (b, t) := by
  subst h
  have h1 : b.length ≤ (b ++ t).length := by simp
  simp [ioReadFull, h1]

theorem stream12Read_ok_pcr {big : Bool} {s : List Byte} {e : Event}
    {rest : List Byte} (h : stream12Read big s = .ok e rest) :
    e.pcrIndex ≤ maxPCRIndex := by
  unfold stream12Read at h
  repeat' split at h
  all_goals first
    | (simp only [ReadResult.ok.injEq] at h
       obtain ⟨he, -⟩ := h
       subst he
       simp only [maxPCRIndex] at *
       omega)
    | simp at h

theorem stream2Record_ok_pcr {big : Bool} {szs : List (Nat × Nat)}
    {s : List Byte} {e : Event} {rest : List Byte}
    (h : stream2Record big szs s = .ok e rest) :
    e.pcrIndex ≤ maxPCRIndex := by
  unfold stream2Record at h
  repeat' split at h
  all_goals first
    | (simp only [ReadResult.ok.injEq] at h
       obtain ⟨he, -⟩ := h
       subst he
       simp only [maxPCRIndex] at *
       omega)
    | simp at h

/-- C1: the spec requires every multi-byte integer field to be decoded as
fixed little-endian, identically on every host; the code instead
reinterprets the wire bytes through the host's native byte order
(`nativeEndian_` in `log.go`), so the decoded value is not a function of
the wire bytes alone.  On the wire bytes `01 00 00 00` a little-endian
host decodes a PCR index of 1 while a big-endian host decodes 16777216,
and the two hosts' decoders return observably different results for the
same record. -/
theorem C1_endianness_host_dependent :
    nativeVal false [1, 0, 0, 0] = 1 ∧
    nativeVal true [1, 0, 0, 0] = 16777216 ∧
    stream12Read false [1, 0, 0, 0, 0, 0, 0, 0] ≠
      stream12Read true [1, 0, 0, 0, 0, 0, 0, 0] := by
  decide

/-- C5: in either encoding, a record whose decoded PCR index field
exceeds 31 makes `ReadNextEvent` fail with the structural
invalid-PCR-index error immediately after the 4-byte PCR index field —
the failure consumes exactly those 4 bytes, leaving everything after
them unread — and every successfully decoded event has a PCR index of at
most 31. -/
theorem C5_pcr_index_guard (big : Bool) (szs : List (Nat × Nat))
    (s : List Byte) :
    (4 ≤ s.length → maxPCRIndex < nativeVal big (s.take 4) →
      stream12Read big s =
        .fail true (.invalidLog (invalidPCRMsg (nativeVal big (s.take 4))))
          (s.drop 4) ∧
      stream2Record big szs s =
        .fail true (.invalidLog (invalidPCRMsg (nativeVal big (s.take 4))))
          (s.drop 4)) ∧
    (∀ e rest, stream12Read big s = .ok e rest → e.pcrIndex ≤ maxPCRIndex) ∧
    (∀ e rest, stream2Record big szs s = .ok e rest →
      e.pcrIndex ≤ maxPCRIndex) := by
  refine ⟨?_, fun e rest h => stream12Read_ok_pcr h,
    fun e rest h => stream2Record_ok_pcr h⟩
  intro h4 hp
  have hb : binaryRead big 4 s = .ok (nativeVal big (s.take 4), s.drop 4) := by
    simp [binaryRead, h4]
  constructor
  · unfold stream12Read
    rw [hb]
    simp [hp]
  · unfold stream2Record
    rw [hb]
    simp [hp]

/-- Witness for C5 at a concrete record whose PCR index decodes to 32. -/
theorem C5_pcr_index_guard_witness :
    stream12Read false [32, 0, 0, 0] =
      .fail true (.invalidLog (invalidPCRMsg 32)) [] ∧
    stream2Record false [] [32, 0, 0, 0] =
      .fail true (.invalidLog (invalidPCRMsg 32)) [] :=
  (C5_pcr_index_guard false [] [32, 0, 0, 0]).1 (by decide) (by decide)

theorem binaryRead_eof_iff (big : Bool) {k : Nat} (hk : 0 < k)
    (s : List Byte) : binaryRead big k s = .error .eof ↔ s = [] := by
  constructor
  · intro h
    unfold binaryRead at h
    split at h
    · simp at h
    · split at h
      · next h0 => exact List.eq_nil_of_length_eq_zero h0
      · simp at h
  · intro h
    subst h
    unfold binaryRead
    rw [if_neg (by simpa using by omega), if_pos (by simp)]

theorem stream12Read_empty (big : Bool) :
    stream12Read big [] = .fail false .eof [] := by
  unfold stream12Read
  rw [(binaryRead_eof_iff big (k := 4) (by omega) []).mpr rfl]

theorem stream2Record_empty (big : Bool) (szs : List (Nat × Nat)) :
    stream2Record big szs [] = .fail false .eof [] := by
  unfold stream2Record
  rw [(binaryRead_eof_iff big (k := 4) (by omega) []).mpr rfl]

theorem stream12Read_fail_false {big : Bool} {s : List Byte} {err : GoError}
    {rest : List Byte} (h : stream12Read big s = .fail false err rest)
    (heof : err = .eof) : s = [] := by
  subst heof
  unfold stream12Read at h
  repeat' split at h
  all_goals simp_all
  all_goals exact (binaryRead_eof_iff big (k := 4) (by omega) s).mp (by assumption)

theorem stream2Record_fail_false {big : Bool} {szs : List (Nat × Nat)}
    {s : List Byte} {err : GoError} {rest : List Byte}
    (h : stream2Record big szs s = .fail false err rest)
    (heof : err = .eof) : s = [] := by
  subst heof
  unfold stream2Record at h
  repeat' split at h
  all_goals simp_all
  all_goals exact (binaryRead_eof_iff big (k := 4) (by omega) s).mp (by assumption)

theorem nextEvent_fst (big : Bool) (l : Log) :
    (Log.nextEvent big l).1 =
      convertRead (recordRead big l.stream l.reader.rest).1 := by
  unfold Log.nextEvent
  rcases hrr : recordRead big l.stream l.reader.rest with ⟨res, st⟩
  simp [hrr]

theorem recordRead_cases (big : Bool) (st : LogStream) (s : List Byte) :
    (recordRead big st s).1 = stream12Read big s ∨
    ∃ szs, (recordRead big st s).1 = stream2Record big szs s := by
  cases st with
  | s12 => exact .inl rfl
  | s2 szs rf =>
    cases rf
    · exact .inl rfl
    · exact .inr ⟨szs, rfl⟩

theorem convert_eof_empty {big : Bool} {s : List Byte} {res : ReadResult}
    (hres : res = stream12Read big s ∨ ∃ szs, res = stream2Record big szs s)
    (h : convertRead res = .error .eof) : s = [] := by
  cases res with
  | ok e r => simp [convertRead] at h
  | fail began err r =>
    simp only [convertRead] at h
    split at h
    · simp at h
    · next hcond =>
      have herr : err = .eof := by simpa using h
      have hbegan : began = false := by
        cases began
        · rfl
        · exact absurd ⟨rfl, herr⟩ hcond
      subst herr
      subst hbegan
      rcases hres with h1 | ⟨szs, h2⟩
      · exact stream12Read_fail_false h1.symm rfl
      · exact stream2Record_fail_false h2.symm rfl

/-- C6: `Log.NextEvent` reports clean end-of-log (a plain `io.EOF` and no
event) exactly when the source had no bytes left at all, i.e. it ended
before any byte of a new record; and whenever the decoder reports a begun
but incomplete record (`began` set) that ended in `io.EOF`, the result is
`io.ErrUnexpectedEOF`, never clean end of stream. -/
theorem C6_clean_end_of_log (big : Bool) (l : Log) :
    ((Log.nextEvent big l).1 = .error .eof ↔ l.reader.rest = []) ∧
    (∀ began err rest st,
      recordRead big l.stream l.reader.rest = (.fail began err rest, st) →
      began = true → err = .eof →
      (Log.nextEvent big l).1 = .error .unexpectedEOF) := by
  have hfst := nextEvent_fst big l
  constructor
  · constructor
    · intro h
      rw [hfst] at h
      rcases recordRead_cases big l.stream l.reader.rest with h1 | ⟨szs, h2⟩
      · exact convert_eof_empty (.inl h1) h
      · exact convert_eof_empty (.inr ⟨szs, h2⟩) h
    · intro h
      rw [hfst]
      rcases recordRead_cases big l.stream l.reader.rest with h1 | ⟨szs, h2⟩
      · rw [h1, h, stream12Read_empty]
        simp [convertRead]
      · rw [h2, h, stream2Record_empty]
        simp [convertRead]
  · intro began err rest st hrr hbt herr
    rw [hfst, hrr]
    subst hbt
    subst herr
    simp [convertRead]

/-- Witness for C6 at a concrete exhausted log and a concrete truncated
log. -/
theorem C6_clean_end_of_log_witness :
    (Log.nextEvent false
      { format := .f1_2, algorithms := [algSha1], stream := .s12,
        reader := { data := [], pos := 0 } }).1 = .error .eof ∧
    (Log.nextEvent false
      { format := .f1_2, algorithms := [algSha1], stream := .s12,
        reader := { data := [0, 0, 0, 0], pos := 0 } }).1 =
      .error .unexpectedEOF :=
  ⟨(C6_clean_end_of_log false _).1.mpr rfl,
   (C6_clean_end_of_log false
      { format := .f1_2, algorithms := [algSha1], stream := .s12,
        reader := { data := [0, 0, 0, 0], pos := 0 } }).2
     true .eof [] .s12 (by decide) rfl rfl⟩

theorem dmInsert_mem {m : List (Nat × List Byte)} {k : Nat} {v : List Byte}
    {p : Nat × List Byte} : p ∈ dmInsert m k v → p = (k, v) ∨ p ∈ m := by
  induction m with
  | nil =>
    intro h
    simpa [dmInsert] using h
  | cons hd tl ih =>
    obtain ⟨k', v'⟩ := hd
    intro h
    by_cases hkk : k' = k
    · simp only [dmInsert, if_pos hkk] at h
      rcases List.mem_cons.mp h with h | h
      · exact .inl h
      · exact .inr (List.mem_cons_of_mem _ h)
    · simp only [dmInsert, if_neg hkk] at h
      rcases List.mem_cons.mp h with h | h
      · exact .inr (h ▸ List.mem_cons_self _ _)
      · rcases ih h with h1 | h1
        · exact .inl h1
        · exact .inr (List.mem_cons_of_mem _ h1)

theorem dmInsert_keys_mem {m : List (Nat × List Byte)} {k : Nat}
    {v : List Byte} {x : Nat} (h : x ∈ (dmInsert m k v).map Prod.fst) :
    x = k ∨ x ∈ m.map Prod.fst := by
  simp only [List.mem_map] at h ⊢
  obtain ⟨p, hp, hx⟩ := h
  rcases dmInsert_mem hp with h1 | h1
  · left
    rw [← hx, h1]
  · right
    exact ⟨p, h1, hx⟩

theorem dmInsert_keys_nodup {m : List (Nat × List Byte)} {k : Nat}
    {v : List Byte} (h : (m.map Prod.fst).Nodup) :
    ((dmInsert m k v).map Prod.fst).Nodup := by
  induction m with
  | nil => simp [dmInsert]
  | cons hd tl ih =>
    obtain ⟨k', v'⟩ := hd
    simp only [List.map_cons, List.nodup_cons] at h
    obtain ⟨hk', htl⟩ := h
    simp only [dmInsert]
    split
    · next heq =>
      subst heq
      simp only [List.map_cons, List.nodup_cons]
      exact ⟨hk', htl⟩
    · next hne =>
      simp only [List.map_cons, List.nodup_cons]
      refine ⟨fun hmem => ?_, ih htl⟩
      rcases dmInsert_keys_mem hmem with h1 | h1
      · exact hne h1
      · exact hk' h1

theorem readDigests_known {big : Bool} {szs : List (Nat × Nat)} :
    ∀ {n : Nat} {m s m' rest},
      readDigests big szs n m s = .ok (m', rest) →
      (∀ p ∈ m, (knownAlgorithms p.1).isSome = true) →
      ∀ p ∈ m', (knownAlgorithms p.1).isSome = true := by
  intro n
  induction n with
  | zero =>
    intro m s m' rest h hm
    simp only [readDigests, Except.ok.injEq, Prod.mk.injEq] at h
    obtain ⟨h1, -⟩ := h
    subst h1
    exact hm
  | succ k ih =>
    intro m s m' rest h hm
    unfold readDigests at h
    split at h
    · simp at h
    next aid s1 _ =>
      split at h
      · simp at h
      next dsz _ =>
        split at h
        · simp at h
        next dg s2 _ =>
          by_cases hc : (knownAlgorithms aid).isSome = true
          · rw [if_pos hc] at h
            refine ih h ?_
            intro p hp
            rcases dmInsert_mem hp with h1 | h1
            · rw [h1]
              exact hc
            · exact hm p h1
          · rw [if_neg hc] at h
            exact ih h hm

theorem readDigests_nodup {big : Bool} {szs : List (Nat × Nat)} :
    ∀ {n : Nat} {m s m' rest},
      readDigests big szs n m s = .ok (m', rest) →
      (m.map Prod.fst).Nodup → (m'.map Prod.fst).Nodup := by
  intro n
  induction n with
  | zero =>
    intro m s m' rest h hm
    simp only [readDigests, Except.ok.injEq, Prod.mk.injEq] at h
    obtain ⟨h1, -⟩ := h
    subst h1
    exact hm
  | succ k ih =>
    intro m s m' rest h hm
    unfold readDigests at h
    split at h
    · simp at h
    next aid s1 _ =>
      split at h
      · simp at h
      next dsz _ =>
        split at h
        · simp at h
        next dg s2 _ =>
          by_cases hc : (knownAlgorithms aid).isSome = true
          · rw [if_pos hc] at h
            exact ih h (dmInsert_keys_nodup hm)
          · rw [if_neg hc] at h
            exact ih h hm

theorem stream2Record_ok_digests {big : Bool} {szs : List (Nat × Nat)}
    {s : List Byte} {e : Event} {rest : List Byte}
    (h : stream2Record big szs s = .ok e rest) :
    (∀ p ∈ e.digests, (knownAlgorithms p.1).isSome = true) ∧
    (e.digests.map Prod.fst).Nodup := by
  unfold stream2Record at h
  repeat' split at h
  all_goals try simp at h
  obtain ⟨he, -⟩ := h
  subst he
  exact ⟨readDigests_known (by assumption) (by simp),
         readDigests_nodup (by assumption) (by simp)⟩

/-- One iteration of the digest-list loop on a well-formed entry: the
2-byte identifier and exactly the digest size declared in the header's
algorithm-size list are consumed, and the digest is retained only for a
recognized algorithm. -/
theorem readDigests_step (big : Bool) (szs : List (Nat × Nat)) (a sz : Nat)
    (dg tail : List Byte) (n : Nat) (m : List (Nat × List Byte))
    (hlk : lookupAlgSize szs a = some sz) (ha : a < 65536)
    (hdg : dg.length = sz) :
    readDigests big szs (n + 1) m (encodeU16 big a ++ (dg ++ tail)) =
      readDigests big szs n
        (if (knownAlgorithms a).isSome then dmInsert m a dg else m) tail := by
  have h1 : binaryRead big 2 (encodeU16 big a ++ (dg ++ tail)) =
      .ok (a, dg ++ tail) := by
    rw [binaryRead_exact big _ _ (encodeU16_length big a),
      nativeVal_encodeU16 big ha]
  have h2 : ioReadFull sz (dg ++ tail) = .ok (dg, tail) :=
    ioReadFull_exact dg tail hdg
  simp [readDigests, h1, hlk, h2]

/-- Assembling a crypto-agile record read up to the digest loop, when the
digest loop fails. -/
theorem stream2Record_digest_error (big : Bool) (szs : List (Nat × Nat))
    (pcrB etB cntB body : List Byte) (cnt : Nat) (e : GoError)
    (sr : List Byte) (hp4 : pcrB.length = 4) (he4 : etB.length = 4)
    (hcnt : binaryRead big 4 (cntB ++ body) = .ok (cnt, body))
    (hpcr : nativeVal big pcrB ≤ maxPCRIndex)
    (hrd : readDigests big szs cnt [] body = .error (e, sr)) :
    stream2Record big szs (pcrB ++ (etB ++ (cntB ++ body))) =
      .fail true e sr := by
  have hb1 : binaryRead big 4 (pcrB ++ (etB ++ (cntB ++ body))) =
      .ok (nativeVal big pcrB, etB ++ (cntB ++ body)) :=
    binaryRead_exact big pcrB _ hp4
  have hb2 : binaryRead big 4 (etB ++ (cntB ++ body)) =
      .ok (nativeVal big etB, cntB ++ body) :=
    binaryRead_exact big etB _ he4
  unfold stream2Record
  rw [hb1]
  simp only []
  rw [if_neg (by omega)]
  simp [hb2, hcnt, hrd]

/-- Assembling a crypto-agile record read when every field is present. -/
theorem stream2Record_digest_ok (big : Bool) (szs : List (Nat × Nat))
    (pcrB etB cntB body : List Byte) (cnt : Nat)
    (m : List (Nat × List Byte)) (s4 : List Byte) (evSize : Nat)
    (s5 dat s6 : List Byte)
    (hp4 : pcrB.length = 4) (he4 : etB.length = 4)
    (hcnt : binaryRead big 4 (cntB ++ body) = .ok (cnt, body))
    (hpcr : nativeVal big pcrB ≤ maxPCRIndex)
    (hrd : readDigests big szs cnt [] body = .ok (m, s4))
    (hev : binaryRead big 4 s4 = .ok (evSize, s5))
    (hfull : ioReadFull evSize s5 = .ok (dat, s6)) :
    stream2Record big szs (pcrB ++ (etB ++ (cntB ++ body))) =
      .ok { pcrIndex := nativeVal big pcrB, eventType := nativeVal big etB,
            digests := m, data := dat } s6 := by
  have hb1 : binaryRead big 4 (pcrB ++ (etB ++ (cntB ++ body))) =
      .ok (nativeVal big pcrB, etB ++ (cntB ++ body)) :=
    binaryRead_exact big pcrB _ hp4
  have hb2 : binaryRead big 4 (etB ++ (cntB ++ body)) =
      .ok (nativeVal big etB, cntB ++ body) :=
    binaryRead_exact big etB _ he4
  unfold stream2Record
  rw [hb1]
  simp only []
  rw [if_neg (by omega)]
  simp [hb2, hcnt, hrd, hev, hfull]

/-- C7: in a crypto-agile (non-first) record, each declared digest entry
is consumed from the stream using the digest size established by the
open-time algorithm-size list — leaving the stream positioned at the
next field — but the returned event's digest map retains entries only
for algorithms present in the Digest Catalog (`knownAlgorithms`);
digests of declared-but-unrecognized algorithms are discarded without
error. -/
theorem C7_catalog_retention (big : Bool) (szs : List (Nat × Nat)) :
    (∀ s e rest, stream2Record big szs s = .ok e rest →
      ∀ p ∈ e.digests, (knownAlgorithms p.1).isSome = true) ∧
    (∀ a sz dg tail n m, lookupAlgSize szs a = some sz → a < 65536 →
      dg.length = sz →
      readDigests big szs (n + 1) m (encodeU16 big a ++ (dg ++ tail)) =
        readDigests big szs n
          (if (knownAlgorithms a).isSome then dmInsert m a dg else m) tail) :=
  ⟨fun _ _ _ h => (stream2Record_ok_digests h).1,
   fun a sz dg tail n m hlk ha hdg =>
     readDigests_step big szs a sz dg tail n m hlk ha hdg⟩

/-- Witness for C7: an entry for the unrecognized algorithm `0x0005`
declared with size 2 in the log header is consumed (2 identifier bytes
plus 2 digest bytes) and discarded from the digest map. -/
theorem C7_catalog_retention_witness :
    readDigests false [(5, 2)] 1 [] (encodeU16 false 5 ++ ([9, 9] ++ [])) =
      readDigests false [(5, 2)] 0
        (if (knownAlgorithms 5).isSome then dmInsert [] 5 [9, 9] else []) [] :=
  (C7_catalog_retention false [(5, 2)]).2 5 2 [9, 9] [] 0 []
    (by decide) (by decide) (by decide)

/-- C10: a crypto-agile record that declares the same recognized
algorithm twice decodes without error — both occurrences' digest bytes
are consumed — and the resulting digest map binds the algorithm to the
digest of the last occurrence; moreover every successfully decoded
record's digest map has at most one entry per algorithm. -/
theorem C10_duplicate_algorithm_last_wins (big : Bool)
    (szs : List (Nat × Nat)) (a sz : Nat) (d1 d2 pcrB etB s : List Byte)
    (hlk : lookupAlgSize szs a = some sz)
    (hkn : (knownAlgorithms a).isSome = true) (ha : a < 65536)
    (h1 : d1.length = sz) (h2 : d2.length = sz)
    (hp4 : pcrB.length = 4) (he4 : etB.length = 4)
    (hpcr : nativeVal big pcrB ≤ maxPCRIndex)
    (hs : s = pcrB ++ (etB ++ (encodeU32 big 2 ++ (encodeU16 big a ++
      (d1 ++ (encodeU16 big a ++ (d2 ++ encodeU32 big 0))))))) :
    stream2Record big szs s =
      .ok { pcrIndex := nativeVal big pcrB, eventType := nativeVal big etB,
            digests := [(a, d2)], data := [] } [] ∧
    (∀ t e rest, stream2Record big szs t = .ok e rest →
      (e.digests.map Prod.fst).Nodup) := by
  constructor
  · subst hs
    have hcnt : binaryRead big 4 (encodeU32 big 2 ++ (encodeU16 big a ++
        (d1 ++ (encodeU16 big a ++ (d2 ++ encodeU32 big 0))))) =
        .ok (2, encodeU16 big a ++ (d1 ++ (encodeU16 big a ++
          (d2 ++ encodeU32 big 0)))) := by
      rw [binaryRead_exact big _ _ (encodeU32_length big 2),
        nativeVal_encodeU32 big (by norm_num)]
    have hrd : readDigests big szs 2 []
        (encodeU16 big a ++ (d1 ++ (encodeU16 big a ++
          (d2 ++ encodeU32 big 0)))) = .ok ([(a, d2)], encodeU32 big 0) := by
      rw [readDigests_step big szs a sz d1 _ 1 [] hlk ha h1,
        if_pos hkn,
        readDigests_step big szs a sz d2 _ 0 (dmInsert [] a d1) hlk ha h2,
        if_pos hkn]
      simp [readDigests, dmInsert]
    have hev : binaryRead big 4 (encodeU32 big 0) = .ok (0, []) := by
      have := binaryRead_exact big (encodeU32 big 0) []
        (encodeU32_length big 0)
      rw [List.append_nil] at this
      rw [this, nativeVal_encodeU32 big (by norm_num)]
    exact stream2Record_digest_ok big szs pcrB etB (encodeU32 big 2) _ 2
      [(a, d2)] (encodeU32 big 0) 0 [] [] [] hp4 he4 hcnt hpcr hrd hev
      (by simp [ioReadFull])
  · intro t e rest h
    exact (stream2Record_ok_digests h).2

/-- Witness for C10 at a concrete record declaring SHA-1 twice. -/
theorem C10_duplicate_algorithm_last_wins_witness :
    stream2Record false [(4, 2)]
      ([0, 0, 0, 0] ++ ([6, 0, 0, 0] ++ (encodeU32 false 2 ++
        (encodeU16 false 4 ++ ([1, 1] ++ (encodeU16 false 4 ++
          ([2, 2] ++ encodeU32 false 0))))))) =
      .ok { pcrIndex := 0, eventType := 6, digests := [(4, [2, 2])],
            data := [] } [] :=
  (C10_duplicate_algorithm_last_wins false [(4, 2)] 4 2 [1, 1] [2, 2]
    [0, 0, 0, 0] [6, 0, 0, 0] _ (by decide) (by decide) (by decide)
    (by decide) (by decide) (by decide) (by decide) (by decide) rfl).1

/-- Encoding of a list of digest-list entries: each entry is the 2-byte
algorithm identifier followed by its digest bytes. -/
def encEntries (big : Bool) : List (Nat × List Byte) → List Byte
| [] => []
| (a, dg) :: rest => encodeU16 big a ++ (dg ++ encEntries big rest)

/-- A well-formed digest-entry list for a header: every entry's algorithm
is found in the algorithm-size list with exactly its digest's length. -/
def goodEntries (szs : List (Nat × Nat)) (l : List (Nat × List Byte)) : Prop :=
  ∀ p ∈ l, lookupAlgSize szs p.1 = some p.2.length ∧ p.1 < 65536

/-- The digest-list loop hits an entry whose algorithm has no entry in
the open-time algorithm-size list: after any number of well-formed
entries, it stops with the `InvalidLogError` naming that algorithm,
leaving the reader just past the offending 2-byte identifier. -/
theorem readDigests_not_found (big : Bool) (szs : List (Nat × Nat))
    (good : List (Nat × List Byte)) (bad k : Nat) (tail : List Byte)
    (hb : lookupAlgSize szs bad = none) (hlt : bad < 65536) :
    ∀ m, goodEntries szs good →
    readDigests big szs (good.length + 1 + k) m
      (encEntries big good ++ (encodeU16 big bad ++ tail)) =
      .error (.invalidLog (algNotFoundMsg bad), tail) := by
  induction good with
  | nil =>
    intro m _
    have hb1 : binaryRead big 2 (encodeU16 big bad ++ tail) =
        .ok (bad, tail) := by
      rw [binaryRead_exact big _ _ (encodeU16_length big bad),
        nativeVal_encodeU16 big hlt]
    have hc : ([] : List (Nat × List Byte)).length + 1 + k = k + 1 := by
      simp
      omega
    rw [hc]
    simp only [encEntries, List.nil_append]
    simp [readDigests, hb1, hb]
  | cons hd tl ih =>
    intro m hg
    obtain ⟨a0, d0⟩ := hd
    have h0 := hg (a0, d0) (List.mem_cons_self _ _)
    have hc : ((a0, d0) :: tl).length + 1 + k = (tl.length + 1 + k) + 1 := by
      simp
      omega
    rw [hc]
    have hshape : encEntries big ((a0, d0) :: tl) ++ (encodeU16 big bad ++ tail) =
        encodeU16 big a0 ++ (d0 ++ (encEntries big tl ++
          (encodeU16 big bad ++ tail))) := by
      simp [encEntries, List.append_assoc]
    rw [hshape,
      readDigests_step big szs a0 d0.length d0 _ (tl.length + 1 + k) m
        h0.1 h0.2 rfl]
    exact ih _ (fun p hp => hg p (List.mem_cons_of_mem _ hp))

/-- C2: a crypto-agile (non-first) record whose digest list reaches an
entry for an algorithm with no entry in the algorithm-size set
established at open time makes `ReadNextEvent` return the fatal
`InvalidLogError` naming that algorithm's identifier, with the partial
flag set and no event. -/
theorem C2_unknown_algorithm_fatal (big : Bool) (szs : List (Nat × Nat))
    (good : List (Nat × List Byte)) (bad k : Nat)
    (pcrB etB tail s : List Byte)
    (hp4 : pcrB.length = 4) (he4 : etB.length = 4)
    (hpcr : nativeVal big pcrB ≤ maxPCRIndex)
    (hcnt : good.length + 1 + k < 4294967296)
    (hg : goodEntries szs good)
    (hb : lookupAlgSize szs bad = none) (hlt : bad < 65536)
    (hs : s = pcrB ++ (etB ++ (encodeU32 big (good.length + 1 + k) ++
      (encEntries big good ++ (encodeU16 big bad ++ tail))))) :
    stream2Record big szs s =
      .fail true (.invalidLog (algNotFoundMsg bad)) tail := by
  subst hs
  have hcb : binaryRead big 4 (encodeU32 big (good.length + 1 + k) ++
      (encEntries big good ++ (encodeU16 big bad ++ tail))) =
      .ok (good.length + 1 + k,
        encEntries big good ++ (encodeU16 big bad ++ tail)) := by
    rw [binaryRead_exact big _ _ (encodeU32_length big _),
      nativeVal_encodeU32 big hcnt]
  exact stream2Record_digest_error big szs pcrB etB _ _ _ _ _ hp4 he4 hcb
    hpcr (readDigests_not_found big szs good bad k tail hb hlt [] hg)

/-- Witness for C2: a record declaring one digest entry for the
unrecognized algorithm `0x000b` against a header that only declared
SHA-1. -/
theorem C2_unknown_algorithm_fatal_witness :
    stream2Record false [(4, 20)]
      ([0, 0, 0, 0] ++ ([4, 0, 0, 0] ++ (encodeU32 false 1 ++
        (encEntries false [] ++ (encodeU16 false 11 ++ []))))) =
      .fail true (.invalidLog (algNotFoundMsg 11)) [] :=
  C2_unknown_algorithm_fatal false [(4, 20)] [] 11 0 [0, 0, 0, 0]
    [4, 0, 0, 0] [] _ (by decide) (by decide) (by decide) (by decide)
    (fun p hp => absurd hp (List.not_mem_nil p)) (by decide) (by decide) rfl

instance {ε α : Type} [DecidableEq ε] [DecidableEq α] :
    DecidableEq (Except ε α) := fun x y =>
  match x, y with
  | .ok a, .ok b =>
    if h : a = b then .isTrue (by rw [h]) else .isFalse (by simp [h])
  | .error a, .error b =>
    if h : a = b then .isTrue (by rw [h]) else .isFalse (by simp [h])
  | .ok _, .error _ => .isFalse (by simp)
  | .error _, .ok _ => .isFalse (by simp)

theorem buildAlgorithms_error (szs : List (Nat × Nat))
    (h : ∃ p ∈ szs, ∃ kk, knownAlgorithms p.1 = some kk ∧ kk ≠ p.2) :
    ∃ msg, buildAlgorithms szs = .error (.invalidLog msg) := by
  induction szs with
  | nil => simp at h
  | cons hd tl ih =>
    obtain ⟨a, sz⟩ := hd
    rcases h with ⟨p, hp, kk, hkk, hne⟩
    rcases List.mem_cons.mp hp with rfl | hp'
    · simp only [buildAlgorithms, hkk]
      rw [if_pos hne]
      exact ⟨_, rfl⟩
    · cases hka : knownAlgorithms a with
      | none =>
        simp only [buildAlgorithms, hka]
        exact ih ⟨p, hp', kk, hkk, hne⟩
      | some k0 =>
        by_cases hne0 : k0 ≠ sz
        · simp only [buildAlgorithms, hka]
          rw [if_pos hne0]
          exact ⟨_, rfl⟩
        · simp only [buildAlgorithms, hka]
          rw [if_neg hne0]
          obtain ⟨msg, hmsg⟩ := ih ⟨p, hp', kk, hkk, hne⟩
          rw [hmsg]
          exact ⟨msg, rfl⟩

theorem buildAlgorithms_ok (szs : List (Nat × Nat))
    (h : ∀ p ∈ szs, ∀ kk, knownAlgorithms p.1 = some kk → kk = p.2) :
    ∃ algs, buildAlgorithms szs = .ok algs := by
  induction szs with
  | nil => exact ⟨[], rfl⟩
  | cons hd tl ih =>
    obtain ⟨a, sz⟩ := hd
    obtain ⟨algs, htl⟩ := ih (fun p hp => h p (List.mem_cons_of_mem _ hp))
    cases hka : knownAlgorithms a with
    | none =>
      simp only [buildAlgorithms, hka]
      exact ⟨algs, htl⟩
    | some k0 =>
      have hk0 : k0 = sz := h (a, sz) (List.mem_cons_self _ _) k0 hka
      simp only [buildAlgorithms, hka]
      rw [if_neg (by simpa using hk0), htl]
      exact ⟨a :: algs, rfl⟩

/-- C3: opening a log whose first record parses as a crypto-agile header
fails with a fatal error — producing no `Log` — whenever some header
entry for a recognized algorithm declares a digest size different from
the Digest Catalog's fixed size, and succeeds (entries for unrecognized
algorithms may declare any size) whenever every recognized entry agrees
with the catalog. -/
theorem C3_header_size_mismatch (big : Bool) (r : Reader) (e : Event)
    (rest : List Byte) (szs : List (Nat × Nat))
    (hread : stream12Read big r.rest = .ok e rest)
    (hparse : parseTCG2LogHeader big e = some szs) :
    ((∃ p ∈ szs, ∃ kk, knownAlgorithms p.1 = some kk ∧ kk ≠ p.2) →
      ∃ msg, newLogFromReader big r = .error (.invalidLog msg)) ∧
    ((∀ p ∈ szs, ∀ kk, knownAlgorithms p.1 = some kk → kk = p.2) →
      ∃ l, newLogFromReader big r = .ok l) := by
  constructor
  · intro h
    obtain ⟨msg, hmsg⟩ := buildAlgorithms_error szs h
    refine ⟨msg, ?_⟩
    simp [newLogFromReader, hread, hparse, hmsg]
  · intro h
    obtain ⟨algs, halgs⟩ := buildAlgorithms_ok szs h
    refine ⟨{ format := .f2, algorithms := algs, stream := .s2 szs false,
              reader := { data := r.data, pos := r.pos } }, ?_⟩
    simp [newLogFromReader, hread, hparse, halgs]

/-- A concrete crypto-agile header record whose single algorithm entry
declares SHA-1 with size 21 instead of 20. -/
def mismatchHeaderData : List Byte :=
  specIdSig ++ [0, 0, 0, 0, 0, 0, 0, 0] ++ [1, 0, 0, 0] ++ [4, 0] ++ [21, 0]

/-- The full log bytes holding just that header record. -/
def mismatchHeaderLog : List Byte :=
  [0, 0, 0, 0] ++ [3, 0, 0, 0] ++ List.replicate 20 0 ++ [32, 0, 0, 0] ++
    mismatchHeaderData

/-- The event the legacy probe read decodes from `mismatchHeaderLog`. -/
def mismatchHeaderEvent : Event :=
  { pcrIndex := 0, eventType := 3,
    digests := [(4, List.replicate 20 0)], data := mismatchHeaderData }

/-- Witness for C3: opening the mismatched-size header log fails. -/
theorem C3_header_size_mismatch_witness :
    ∃ msg, newLogFromReader false ⟨mismatchHeaderLog, 0⟩ =
      .error (.invalidLog msg) :=
  (C3_header_size_mismatch false ⟨mismatchHeaderLog, 0⟩ mismatchHeaderEvent
    [] [(4, 21)] (by decide) (by decide)).1
    ⟨(4, 21), by decide, 20, by decide, by decide⟩

/-- The crypto-agile header shape detected at open: PCR index 0, the
no-action event type, an all-zero SHA-1 digest, and a payload beginning
with the 16-byte Spec ID signature. -/
def headerShape (e : Event) : Prop :=
  e.pcrIndex = 0 ∧ e.eventType = eventTypeNoAction ∧
  isZeroBytes (dmGetD e.digests algSha1) ∧ e.data.take 16 = specIdSig

instance (e : Event) : Decidable (headerShape e) := by
  unfold headerShape
  infer_instance

theorem headerShape_of_parse {big : Bool} {e : Event}
    {szs : List (Nat × Nat)} (h : parseTCG2LogHeader big e = some szs) :
    headerShape e := by
  unfold parseTCG2LogHeader at h
  split at h
  · simp at h
  next h1 =>
    split at h
    · simp at h
    next h2 =>
      split at h
      · simp at h
      next h3 =>
        split at h
        · simp at h
        next h4 =>
          split at h
          · simp at h
          next h5 =>
            exact ⟨not_ne_iff.mp h1, not_ne_iff.mp h2, not_not.mp h3,
              not_ne_iff.mp h5⟩

/-- C4: format detection at open restores the read position exactly to
the original start offset whenever a `Log` is produced; when the first
record does not match the crypto-agile header shape the log is legacy
with algorithm set exactly {SHA-1}; and in both formats, the opened
log's first record read uses the legacy layout on the bytes from the
original start. -/
theorem C4_format_detection (big : Bool) (r : Reader) (l : Log)
    (hopen : newLogFromReader big r = .ok l) :
    l.reader = r ∧
    (∀ e rest, stream12Read big r.rest = .ok e rest → ¬ headerShape e →
      l.format = .f1_2 ∧ l.algorithms = [algSha1]) ∧
    (recordRead big l.stream l.reader.rest).1 = stream12Read big r.rest := by
  unfold newLogFromReader at hopen
  split at hopen
  · simp at hopen
  next event rest0 heq =>
    split at hopen
    next szs hparse =>
      split at hopen
      · simp at hopen
      next algs halgs =>
        have hl := Except.ok.inj hopen
        subst hl
        refine ⟨rfl, ?_, rfl⟩
        intro e rest h hshape
        have he : event = e := (ReadResult.ok.inj (heq.symm.trans h)).1
        exact absurd (headerShape_of_parse (he ▸ hparse)) hshape
    next hparse =>
      have hl := Except.ok.inj hopen
      subst hl
      exact ⟨rfl, fun _ _ _ _ => ⟨rfl, rfl⟩, rfl⟩

/-- A concrete legacy-format log: its only record has event type 5,
which does not match the crypto-agile header shape. -/
def legacyProbeLog : List Byte :=
  [0, 0, 0, 0] ++ [5, 0, 0, 0] ++ List.replicate 20 0 ++ [0, 0, 0, 0]

/-- The event decoded from `legacyProbeLog`'s record. -/
def legacyProbeEvent : Event :=
  { pcrIndex := 0, eventType := 5,
    digests := [(4, List.replicate 20 0)], data := [] }

/-- The `Log` that opening `legacyProbeLog` produces. -/
def legacyProbeHandle : Log :=
  { format := .f1_2, algorithms := [algSha1], stream := .s12,
    reader := { data := legacyProbeLog, pos := 0 } }

/-- Witness for C4 at the concrete legacy log. -/
theorem C4_format_detection_witness :
    legacyProbeHandle.reader = ({ data := legacyProbeLog, pos := 0 } : Reader) ∧
    legacyProbeHandle.format = Format.f1_2 ∧
    legacyProbeHandle.algorithms = [algSha1] ∧
    (recordRead false legacyProbeHandle.stream
        legacyProbeHandle.reader.rest).1 =
      stream12Read false (Reader.rest { data := legacyProbeLog, pos := 0 }) := by
  have h := C4_format_detection false { data := legacyProbeLog, pos := 0 }
    legacyProbeHandle (by decide)
  exact ⟨h.1, (h.2.1 legacyProbeEvent [] (by decide) (by decide)).1,
    (h.2.1 legacyProbeEvent [] (by decide) (by decide)).2, h.2.2⟩

theorem findMismatch_none_iff (hashFn : Nat → List Byte → List Byte)
    (d : List Byte) (m : List (Nat × List Byte)) :
    findMismatch hashFn d m = none ↔ ∀ p ∈ m, p.2 = hashFn p.1 d := by
  induction m with
  | nil => simp [findMismatch]
  | cons hd tl ih =>
    obtain ⟨a, dg⟩ := hd
    by_cases hc : dg = hashFn a d
    · simp [findMismatch, hc, ih]
    · simp [findMismatch, hc]

theorem findMismatch_some {hashFn : Nat → List Byte → List Byte}
    {d : List Byte} {m : List (Nat × List Byte)} {a : Nat} {dg : List Byte} :
    findMismatch hashFn d m = some (a, dg) →
    (a, dg) ∈ m ∧ dg ≠ hashFn a d := by
  induction m with
  | nil =>
    intro h
    simp [findMismatch] at h
  | cons hd tl ih =>
    obtain ⟨a0, dg0⟩ := hd
    intro h
    by_cases hc : dg0 ≠ hashFn a0 d
    · simp only [findMismatch] at h
      rw [if_pos hc] at h
      obtain ⟨h1, h2⟩ := Prod.mk.injEq .. ▸ Option.some.inj h
      subst h1
      subst h2
      exact ⟨List.mem_cons_self _ _, hc⟩
    · simp only [findMismatch] at h
      rw [if_neg hc] at h
      obtain ⟨h1, h2⟩ := ih h
      exact ⟨List.mem_cons_of_mem _ h1, h2⟩

theorem checkEvent_sep_reduce (big : Bool)
    (hashFn : Nat → List Byte → List Byte) (e : VEvent) (f : Format)
    (hsep : e.eventType = eventTypeSeparator) :
    checkEvent big hashFn e f =
      (if 7 < e.pcrIndex then
        some (.unexpectedEventType e.eventType e.pcrIndex)
      else
        match e.data with
        | .other b => some (.invalidEventData e.eventType (.other b))
        | .separator t bytes =>
          match findMismatch hashFn
              (if t = separatorEventTypeError then errorSeparatorBytes big
               else bytes) e.digests with
          | some (a, dg) => some (.unexpectedDigestValue e.eventType a dg)
          | none => none) := by
  unfold checkEvent
  rw [hsep]
  simp [eventTypePostCode, eventTypeNoAction, eventTypeSeparator,
    EventData.toBytes]

theorem checkEvent_tag_reduce (big : Bool)
    (hashFn : Nat → List Byte → List Byte) (e : VEvent) (f : Format)
    (htag : e.eventType = eventTypeEventTag) :
    checkEvent big hashFn e f =
      if 4 < e.pcrIndex ∨ (e.pcrIndex < 4 ∧ f = Format.f2) then
        some (.unexpectedEventType e.eventType e.pcrIndex)
      else none := by
  unfold checkEvent
  rw [htag]
  simp [eventTypePostCode, eventTypeNoAction, eventTypeSeparator,
    eventTypeEventTag]

/-- C8: on a SEPARATOR event, `check` reports a structural error when
the PCR index exceeds 7 or the payload did not decode as a separator
record; otherwise (on a little-endian host, where the error-separator
buffer holds the little-endian bytes of 1) it reports an
unexpected-digest-value error naming an offending algorithm exactly when
some bank's digest differs from that bank's hash of the literal payload
bytes (normal separator) or of the 4-byte value `01 00 00 00`
(error-indicating separator), and passes when every bank matches. -/
theorem C8_separator_check (hashFn : Nat → List Byte → List Byte)
    (e : VEvent) (f : Format) (hsep : e.eventType = eventTypeSeparator) :
    (7 < e.pcrIndex →
      checkEvent false hashFn e f =
        some (.unexpectedEventType e.eventType e.pcrIndex)) ∧
    (∀ b, e.pcrIndex ≤ 7 → e.data = .other b →
      checkEvent false hashFn e f =
        some (.invalidEventData e.eventType (.other b))) ∧
    (∀ t bytes, e.pcrIndex ≤ 7 → e.data = .separator t bytes →
      ((checkEvent false hashFn e f = none) ↔
        ∀ p ∈ e.digests, p.2 = hashFn p.1
          (if t = separatorEventTypeError then [1, 0, 0, 0] else bytes)) ∧
      (∀ a dg, checkEvent false hashFn e f =
          some (.unexpectedDigestValue e.eventType a dg) →
        (a, dg) ∈ e.digests ∧
        dg ≠ hashFn a
          (if t = separatorEventTypeError then [1, 0, 0, 0] else bytes)) ∧
      ((∃ p ∈ e.digests, p.2 ≠ hashFn p.1
          (if t = separatorEventTypeError then [1, 0, 0, 0] else bytes)) →
        ∃ a dg, checkEvent false hashFn e f =
          some (.unexpectedDigestValue e.eventType a dg))) := by
  have hred := checkEvent_sep_reduce false hashFn e f hsep
  refine ⟨?_, ?_, ?_⟩
  · intro h7
    rw [hred, if_pos h7]
  · intro b h7 hdata
    rw [hred, if_neg (by omega), hdata]
  · intro t bytes h7 hdata
    set d := (if t = separatorEventTypeError then
      ([1, 0, 0, 0] : List Byte) else bytes)
    have hceq : checkEvent false hashFn e f =
        (match findMismatch hashFn d e.digests with
         | some (a, dg) =>
           some (CheckError.unexpectedDigestValue e.eventType a dg)
         | none => none) := by
      rw [hred, if_neg (by omega), hdata]
      rfl
    refine ⟨?_, ?_, ?_⟩
    · constructor
      · intro h
        rw [hceq] at h
        cases hfm : findMismatch hashFn d e.digests with
        | none => exact (findMismatch_none_iff hashFn d e.digests).mp hfm
        | some p =>
          obtain ⟨a0, dg0⟩ := p
          rw [hfm] at h
          simp at h
      · intro h
        rw [hceq, (findMismatch_none_iff hashFn d e.digests).mpr h]
    · intro a dg h
      rw [hceq] at h
      cases hfm : findMismatch hashFn d e.digests with
      | none =>
        rw [hfm] at h
        simp at h
      | some p =>
        obtain ⟨a0, dg0⟩ := p
        rw [hfm] at h
        simp only [Option.some.injEq, CheckError.unexpectedDigestValue.injEq]
          at h
        obtain ⟨-, rfl, rfl⟩ := h
        exact findMismatch_some hfm
    · intro hex
      cases hfm : findMismatch hashFn d e.digests with
      | none =>
        obtain ⟨p, hp, hne⟩ := hex
        exact absurd ((findMismatch_none_iff hashFn d e.digests).mp hfm p hp)
          hne
      | some p =>
        obtain ⟨a0, dg0⟩ := p
        refine ⟨a0, dg0, ?_⟩
        rw [hceq, hfm]

/-- Witness for C8: a SEPARATOR event at PCR 3 carrying an
error-indicating separator record whose single SHA-1 digest equals the
bank's hash of the error value passes the check. -/
theorem C8_separator_check_witness :
    checkEvent false (fun _ _ => [1, 0, 0, 0])
      { pcrIndex := 3, eventType := 4,
        digests := [(4, [1, 0, 0, 0])], data := .separator 1 [] }
      Format.f2 = none :=
  (((C8_separator_check (fun _ _ => [1, 0, 0, 0])
      { pcrIndex := 3, eventType := 4,
        digests := [(4, [1, 0, 0, 0])], data := .separator 1 [] }
      Format.f2 (by decide)).2.2 1 [] (by decide) rfl).1).mpr
    (by intro p hp; fin_cases hp; rfl)

/-- C9: on an EVENT_TAG event, `check` reports a structural error
exactly when the PCR index exceeds 4 or the format is crypto-agile and
the PCR index is in 0–3; PCR 4 passes under both formats, and PCR 0–3
passes only under the legacy format. -/
theorem C9_event_tag_rules (big : Bool)
    (hashFn : Nat → List Byte → List Byte) (e : VEvent) (f : Format)
    (htag : e.eventType = eventTypeEventTag) :
    (checkEvent big hashFn e f =
        some (.unexpectedEventType e.eventType e.pcrIndex) ↔
      (4 < e.pcrIndex ∨ (e.pcrIndex < 4 ∧ f = Format.f2))) ∧
    (e.pcrIndex = 4 → checkEvent big hashFn e f = none) ∧
    (e.pcrIndex < 4 →
      (checkEvent big hashFn e f = none ↔ f = Format.f1_2)) := by
  have hred := checkEvent_tag_reduce big hashFn e f htag
  refine ⟨?_, ?_, ?_⟩
  · by_cases hc : 4 < e.pcrIndex ∨ (e.pcrIndex < 4 ∧ f = Format.f2)
    · rw [hred, if_pos hc]
      simpa using hc
    · rw [hred, if_neg hc]
      simpa using hc
  · intro h4
    rw [hred, if_neg (by omega)]
  · intro h4
    cases f with
    | f1_2 =>
      rw [hred, if_neg (by simp; omega)]
      simp
    | f2 =>
      rw [hred, if_pos (.inr ⟨h4, rfl⟩)]
      simp

/-- Witness for C9: an EVENT_TAG event at PCR 4 passes under the
crypto-agile format. -/
theorem C9_event_tag_rules_witness :
    checkEvent false (fun _ _ => [])
      { pcrIndex := 4, eventType := 6, digests := [], data := .other [] }
      Format.f2 = none :=
  (C9_event_tag_rules false (fun _ _ => [])
    { pcrIndex := 4, eventType := 6, digests := [], data := .other [] }
    Format.f2 (by decide)).2.1 rfl

end Tcg
